import Mathlib

/-!
Verification of `symnet/image/data_utils.py`.

The Python module is shallowly embedded: numpy arrays become explicit
shape-plus-data structures, raised exceptions become `Except` values, the
filesystem becomes association lists, and the external collaborators
(`sklearn.train_test_split`, `symnet.data_utils.rebalance`,
`scipy.ndimage.zoom`, `multiprocessing.Pool.map`) are either parameters
with their documented contracts or small definitional models of those
contracts.
-/

namespace SymNet

/-- A decoded image: a numpy `ndarray` modelled as its shape together with
its flattened pixel data (pixel values as rationals). -/
structure Image where
  shape : List Nat
  data : List Rat
deriving Repr, DecidableEq, Inhabited

/-- A numpy array holding several images, as produced by `np.asanyarray` /
`np.array` on a list of images: `shape` is the array's own shape
(`n :: s` for a stacked batch of `n` images of common shape `s`, `[n]`
for an object array of heterogeneous images, `[]` for a 0-d array) and
`imgs` the contained images in order. -/
structure Batch where
  shape : List Nat
  imgs : List Image
deriving Repr, DecidableEq, Inhabited

/-- The exceptions the Python module can raise, one constructor per raise
site.  `imageDoesNotExist` is the `ValueError` from `_image_to_array`
(the spec's `NotFoundError`), `imagesDirDoesNotExist` the `ValueError`
from `read_images` (the spec's `DirectoryNotFoundError`),
`notEnoughValuesToUnpack` the `ValueError` Python raises when a 2-tuple
is unpacked into four targets, and `indexError` the `IndexError` from
`df.columns[1]` on a one-column table. -/
inductive PyErr where
  | imageDoesNotExist (path : String)
  | imagesDirDoesNotExist
  | notEnoughValuesToUnpack
  | indexError
deriving Repr, DecidableEq

/-- The filesystem as the module observes it: decoded image files keyed by
path, existing directories, and CSV files keyed by path, already parsed
into their lines (each line a list of string fields). -/
structure FS where
  images : List (String × Image)
  dirs : List String
  csvs : List (String × List (List String))

/-- os.path.join for a directory and a file name. -/
def pathJoin (dir file : String) : String := dir ++ "/" ++ file

/-- A parsed pandas table: `pd.read_csv` consumes the file's first line as
the column index (`header`) and keeps the remaining lines as data
(`rows`). -/
structure DataFrame where
  header : List String
  rows : List (List String)
deriving Repr, DecidableEq

/-- pd.read_csv on the lines of an existing file: the first line becomes
the column names, the rest the data rows. -/
def pdReadCsv (lines : List (List String)) : DataFrame :=
  ⟨lines.headD [], lines.tail⟩

/-- The value returned by `read_csv_file`: either the 2-tuple `([[]], [])`
of the soft-failure paths or the 4-tuple
`(x_train, y_train, x_test, y_test)` of column projections. -/
inductive ReadCsvResult where
  | pair (names : List (List String)) (labels : List String)
  | quad (x_train y_train x_test y_test : List String)
deriving Repr, DecidableEq

/-- `read_csv_file(path, balance=True)`.  `split` models
`sklearn.train_test_split(df, train_size=0.7)` and `rebalance` models
`symnet.data_utils.rebalance(train_df, df.columns[1])`, both external
collaborators.  The returned pair carries the lines printed to stdout
(the code's warnings) next to the returned value; exceptions are the
`Except.error` case. -/
def read_csv_file (fs : FS)
    (split : List (List String) → List (List String) × List (List String))
    (rebalance : List (List String) → String → List (List String))
    (path : Option String) (balance : Bool := true) :
    Except PyErr (List String × ReadCsvResult) :=
  match path with
  | none => .ok (["WARNING: Path does not exist, or is None."], .pair [[]] [])
  | some p =>
    match List.lookup p fs.csvs with
    | none => .ok (["WARNING: Path does not exist, or is None."], .pair [[]] [])
    | some lines =>
      let df := pdReadCsv lines
      if df.header.length = 0 then
        .ok (["WARNING: File has no columns"], .pair [[]] [])
      else if df.header.length < 2 then
        -- `df.columns[1]` (reached through `rebalance` when balancing,
        -- through the return statement otherwise) raises IndexError.
        .error .indexError
      else
        let ts := split df.rows
        let train_df := if balance then rebalance ts.1 (df.header.getD 1 "") else ts.1
        .ok ([], .quad (train_df.map (fun r => r.getD 0 ""))
                       (train_df.map (fun r => r.getD 1 ""))
                       (ts.2.map (fun r => r.getD 0 ""))
                       (ts.2.map (fun r => r.getD 1 "")))

/-- `_image_to_array(img_path)`: looks the path up (os.path.exists plus
`imageio.imread`), appends a channel axis of size 1 when the decoded
array has fewer than 3 axes, and raises when the path does not exist. -/
def _image_to_array (fs : FS) (img_path : String) : Except PyErr Image :=
  match List.lookup img_path fs.images with
  | some img =>
    if img.shape.length < 3 then .ok ⟨img.shape ++ [1], img.data⟩ else .ok img
  | none => .error (.imageDoesNotExist img_path)

/-- Sequences a list of already-computed results, failing with the first
error in index order.  This is how `Pool.map` surfaces a worker
exception: all results are collected by input index and the collected
error is raised. -/
def sequenceE {α : Type} : List (Except PyErr α) → Except PyErr (List α)
  | [] => .ok []
  | x :: xs =>
    match x with
    | .error e => .error e
    | .ok v =>
      match sequenceE xs with
      | .error e => .error e
      | .ok vs => .ok (v :: vs)

/-- `Pool.map(f, tasks)`: every task is dispatched, results are collected
in input order (the documented ordering guarantee of `Pool.map`), and a
worker exception is re-raised. -/
def poolMap {α : Type} (f : String → Except PyErr α) (tasks : List String) :
    Except PyErr (List α) :=
  sequenceE (tasks.map f)

/-- A Python list comprehension `[f(x) for x in xs]` under exception
semantics: elements are computed left to right and the first exception
aborts the comprehension. -/
def mapExcept {α : Type} (f : String → Except PyErr α) : List String → Except PyErr (List α)
  | [] => .ok []
  | p :: ps =>
    match f p with
    | .error e => .error e
    | .ok v =>
      match mapExcept f ps with
      | .error e => .error e
      | .ok vs => .ok (v :: vs)

/-- `np.asanyarray` / `np.array` on a list of images: an empty list gives
the empty 1-d array of shape `(0,)`; a list of equal-shaped images is
stacked into shape `(n, *s)`; a ragged list becomes an object array of
shape `(n,)`. -/
def npArrayOfList (imgs : List Image) : Batch :=
  match imgs with
  | [] => ⟨[0], []⟩
  | i :: rest =>
    if rest.all (fun j => decide (j.shape = i.shape)) then ⟨imgs.length :: i.shape, imgs⟩
    else ⟨[imgs.length], imgs⟩

/-- `read_images(img_file_names, images_dir_path, parallel=True)`: joins
each file name onto the directory, checks the directory exists, decodes
either through the worker pool or through a sequential comprehension,
and wraps the decoded list with `np.asanyarray`. -/
def read_images (fs : FS) (img_file_names : List String) (images_dir_path : String)
    (parallel : Bool := true) : Except PyErr Batch :=
  let img_paths := img_file_names.map (fun f => pathJoin images_dir_path f)
  if images_dir_path ∈ fs.dirs then
    if parallel then
      match poolMap (_image_to_array fs) img_paths with
      | .error e => .error e
      | .ok imgs => .ok (npArrayOfList imgs)
    else
      match mapExcept (_image_to_array fs) img_paths with
      | .error e => .error e
      | .ok imgs => .ok (npArrayOfList imgs)
  else .error .imagesDirDoesNotExist

/-- `load_image_dataset(csv_file_path, images_path, parallel=True)`:
unpacks `read_csv_file`'s return value into four variables (so the
2-tuple soft-failure value raises `ValueError: not enough values to
unpack`), then decodes both partitions. -/
def load_image_dataset (fs : FS)
    (split : List (List String) → List (List String) × List (List String))
    (rebalance : List (List String) → String → List (List String))
    (csv_file_path : Option String) (images_path : String) (parallel : Bool := true) :
    Except PyErr (Batch × List String × Batch × List String) :=
  match read_csv_file fs split rebalance csv_file_path with
  | .error e => .error e
  | .ok (_, .pair _ _) => .error .notEnoughValuesToUnpack
  | .ok (_, .quad xtr ytr xte yte) =>
    match read_images fs xtr images_path parallel with
    | .error e => .error e
    | .ok x_train =>
      match read_images fs xte images_path parallel with
      | .error e => .error e
      | .ok x_test => .ok (x_train, ytr, x_test, yte)

/-- `np.median` of a list of naturals: sort, take the middle element when
the length is odd, the average of the two middle elements when even.
(On the empty list numpy yields `nan`; the value this definition gives
there is never consumed by the claims.) -/
def medianQ (l : List Nat) : Rat :=
  let s := List.insertionSort (· ≤ ·) l
  let n := s.length
  if n % 2 = 1 then ((s.getD (n / 2) 0 : Nat) : Rat)
  else (((s.getD (n / 2 - 1) 0 : Nat) : Rat) + ((s.getD (n / 2) 0 : Nat) : Rat)) / 2

/-- numpy's `astype(int)` on a float: truncation toward zero. -/
def pyTrunc (q : Rat) : Int := if 0 ≤ q then ⌊q⌋ else -⌊-q⌋

/-- `np.median([x.shape for x in imgs], axis=0).astype(int)` for a batch
of images of uniform rank (numpy's behaviour on ragged ranks is an
error and is not modelled). -/
def medianShape (imgs : List Image) : List Int :=
  let d := (imgs.headD default).shape.length
  (List.range d).map (fun k => pyTrunc (medianQ (imgs.map (fun x => x.shape.getD k 0))))

/-- `compute_median_dimensions(images)`: `[]` for `None` or a shapeless
(0-d) array, otherwise the truncated element-wise median of the
per-image shapes. -/
def compute_median_dimensions (images : Option Batch) : List Int :=
  match images with
  | none => []
  | some a => if a.shape.length = 0 then [] else medianShape a.imgs

/-- `np.divide(size, x.shape)`: element-wise exact division. -/
def zoomFactors (size : List Int) (shape : List Nat) : List Rat :=
  List.zipWith (fun (s : Int) (n : Nat) => (s : Rat) / (n : Rat)) size shape

/-- Python's built-in `round`: round half to even. -/
def pyRound (q : Rat) : Int :=
  let f := ⌊q⌋
  if q - f < 1 / 2 then f
  else if (1 : Rat) / 2 < q - f then f + 1
  else if f % 2 = 0 then f else f + 1

/-- The output-shape contract of `scipy.ndimage.zoom`: axis `i` of the
output has extent `int(round(zoom[i] * input.shape[i]))`. -/
def zoomOutShape (factors : List Rat) (shape : List Nat) : List Nat :=
  List.zipWith (fun (r : Rat) (n : Nat) => (pyRound (r * n)).toNat) factors shape

/-- A resampling function honours the documented shape contract of
`scipy.ndimage.zoom`.  The pixel contents it produces are the external
collaborator's business and are unconstrained. -/
def ZoomSpec (zf : List Rat → Image → Image) : Prop :=
  ∀ factors x, (zf factors x).shape = zoomOutShape factors x.shape

/-- A concrete resampler satisfying `ZoomSpec`, used to instantiate the
external collaborator at concrete inputs (its pixel contents model only
the shape contract, as interpolation itself is out of scope). -/
def modelZoom (factors : List Rat) (x : Image) : Image :=
  ⟨zoomOutShape factors x.shape, List.replicate (zoomOutShape factors x.shape).prod 0⟩

/-- `resize_images(images, size=None)`: `None` and 0-d arrays are returned
unchanged; otherwise the target size defaults to
`compute_median_dimensions`, every image is resampled by the factors
`size / x.shape`, and the results are rewrapped with `np.array`. -/
def resize_images (zf : List Rat → Image → Image) (images : Option Batch)
    (size : Option (List Int) := none) : Option Batch :=
  match images with
  | none => none
  | some a =>
    if a.shape.length = 0 then some a
    else
      let sz := match size with
        | none => compute_median_dimensions (some a)
        | some s => s
      some (npArrayOfList (a.imgs.map (fun x => zf (zoomFactors sz x.shape) x)))

/-- `np.mean(xs, axis=0)` on a batch of flattened images of a common
pixel count: the per-pixel average over the batch. -/
def npMeanAxis0 (xs : List (List Rat)) : List Rat :=
  let d := (xs.headD []).length
  (List.range d).map (fun j => (xs.map (fun x => x.getD j 0)).sum / (xs.length : Rat))

/-- `normalize_images(x_train, x_test)`: both partitions are centered
with the mean of the train batch and divided by 255. -/
def normalize_images (x_train x_test : List (List Rat)) :
    List (List Rat) × List (List Rat) :=
  let x_train_mean := npMeanAxis0 x_train
  (x_train.map (fun x => List.zipWith (fun a b => (a - b) / 255) x x_train_mean),
   x_test.map (fun x => List.zipWith (fun a b => (a - b) / 255) x x_train_mean))

/-- C1: for every path that is `None` or does not exist, `read_csv_file`
returns the `([[]], [])` empty result after printing a warning and
raises no exception (`Except.ok`), and the same empty result with a
warning is returned when the parsed table has zero columns. -/
theorem C1_read_csv_file_soft_failure (fs : FS)
    (split : List (List String) → List (List String) × List (List String))
    (rebalance : List (List String) → String → List (List String))
    (balance : Bool) :
    (∀ path : Option String,
      (path = none ∨ ∃ p, path = some p ∧ List.lookup p fs.csvs = none) →
      read_csv_file fs split rebalance path balance =
        .ok (["WARNING: Path does not exist, or is None."], .pair [[]] [])) ∧
    (∀ p lines, List.lookup p fs.csvs = some lines →
      (pdReadCsv lines).header.length = 0 →
      read_csv_file fs split rebalance (some p) balance =
        .ok (["WARNING: File has no columns"], .pair [[]] [])) := by
  constructor
  · rintro path (rfl | ⟨p, rfl, hlk⟩)
    · rfl
    · simp [read_csv_file, hlk]
  · intro p lines hlk hz
    simp [read_csv_file, hlk, hz]

/-- Witness for C1 at concrete inputs: a filesystem holding a single CSV
file `"t"` whose only line has no fields. -/
theorem C1_witness :
    read_csv_file ⟨[], [], [("t", [[]])]⟩ (fun r => (r, [])) (fun r _ => r)
        none true =
      .ok (["WARNING: Path does not exist, or is None."], .pair [[]] []) ∧
    read_csv_file ⟨[], [], [("t", [[]])]⟩ (fun r => (r, [])) (fun r _ => r)
        (some "t") true =
      .ok (["WARNING: File has no columns"], .pair [[]] []) :=
  ⟨(C1_read_csv_file_soft_failure ⟨[], [], [("t", [[]])]⟩ (fun r => (r, []))
      (fun r _ => r) true).1 none (Or.inl rfl),
   (C1_read_csv_file_soft_failure ⟨[], [], [("t", [[]])]⟩ (fun r => (r, []))
      (fun r _ => r) true).2 "t" [[]] (by decide) rfl⟩

/-- C9: for every `csv_file_path` that is `None` or does not exist,
`load_image_dataset` raises rather than returning an empty dataset:
`read_csv_file`'s soft-failure value is the 2-tuple `([[]], [])`, and
unpacking it into four variables raises `ValueError: not enough values
to unpack`. -/
theorem C9_load_image_dataset_raises_on_missing_csv (fs : FS)
    (split : List (List String) → List (List String) × List (List String))
    (rebalance : List (List String) → String → List (List String))
    (csv_file_path : Option String) (images_path : String) (parallel : Bool)
    (h : csv_file_path = none ∨
      ∃ p, csv_file_path = some p ∧ List.lookup p fs.csvs = none) :
    load_image_dataset fs split rebalance csv_file_path images_path parallel =
      .error .notEnoughValuesToUnpack := by
  rcases h with rfl | ⟨p, rfl, hlk⟩
  · rfl
  · simp [load_image_dataset, read_csv_file, hlk]

/-- Witness for C9 at a concrete input: the empty filesystem and a `None`
CSV path. -/
theorem C9_witness :
    load_image_dataset ⟨[], [], []⟩ (fun r => (r, [])) (fun r _ => r)
        none "imgs" true =
      .error .notEnoughValuesToUnpack :=
  C9_load_image_dataset_raises_on_missing_csv ⟨[], [], []⟩ (fun r => (r, []))
    (fun r _ => r) none "imgs" true (Or.inl rfl)

/-- C10: for an existing CSV file, `read_csv_file` consumes the first line
as the header: the split runs on the remaining lines only, so with an
order-and-count-preserving split (the `train_test_split` contract) and
no rebalancing, the two partitions together hold `n - 1` rows for a
file of `n` lines, whatever the first line's field values are. -/
theorem C10_header_row_consumed (fs : FS)
    (split : List (List String) → List (List String) × List (List String))
    (rebalance : List (List String) → String → List (List String))
    (p : String) (lines : List (List String))
    (hlk : List.lookup p fs.csvs = some lines)
    (hhdr : 2 ≤ (lines.headD []).length)
    (hsplit : (split lines.tail).1.length + (split lines.tail).2.length =
      lines.tail.length) :
    read_csv_file fs split rebalance (some p) false =
      .ok ([], .quad ((split lines.tail).1.map (fun r => r.getD 0 ""))
                     ((split lines.tail).1.map (fun r => r.getD 1 ""))
                     ((split lines.tail).2.map (fun r => r.getD 0 ""))
                     ((split lines.tail).2.map (fun r => r.getD 1 ""))) ∧
    ((split lines.tail).1.map (fun r => r.getD 0 "")).length +
      ((split lines.tail).2.map (fun r => r.getD 0 "")).length =
      lines.length - 1 := by
  have hz : ¬ (lines.headD []).length = 0 := by omega
  have hlt : ¬ (lines.headD []).length < 2 := by omega
  constructor
  · simp only [read_csv_file, hlk, Bool.false_eq_true, if_false, pdReadCsv]
    rw [if_neg hz, if_neg hlt]
  · simp only [List.length_map]
    rw [hsplit, List.length_tail]

/-- Witness for C10 at a concrete input: a three-line CSV (header plus
two data rows) and a take/drop split. -/
theorem C10_witness :
    read_csv_file ⟨[], [], [("t", [["File Name", "Label"], ["a.png", "0"], ["b.png", "1"]])]⟩
        (fun rs => (rs.take 1, rs.drop 1)) (fun r _ => r) (some "t") false =
      .ok ([], .quad ["a.png"] ["0"] ["b.png"] ["1"]) ∧
    (1 + 1 : Nat) = 3 - 1 := by
  have h := C10_header_row_consumed
    ⟨[], [], [("t", [["File Name", "Label"], ["a.png", "0"], ["b.png", "1"]])]⟩
    (fun rs => (rs.take 1, rs.drop 1)) (fun r _ => r) "t"
    [["File Name", "Label"], ["a.png", "0"], ["b.png", "1"]]
    (by decide) (by decide) (by decide)
  simpa using h

/-- A Python comprehension under exception semantics computes the same
value as dispatching all tasks and collecting the results in input
order: the two execution modes of `read_images` share one behaviour. -/
theorem mapExcept_eq_sequenceE {α : Type} (f : String → Except PyErr α)
    (ps : List String) : mapExcept f ps = sequenceE (ps.map f) := by
  induction ps with
  | nil => rfl
  | cons p ps ih => simp only [mapExcept, List.map_cons, sequenceE, ih]

/-- When sequencing succeeds, every input was the corresponding success. -/
theorem sequenceE_ok {α : Type} (xs : List (Except PyErr α)) (vs : List α)
    (h : sequenceE xs = .ok vs) : xs = vs.map Except.ok := by
  induction xs generalizing vs with
  | nil =>
    simp only [sequenceE] at h
    cases h
    rfl
  | cons x xs ih =>
    cases x with
    | error e => simp [sequenceE] at h
    | ok v =>
      simp only [sequenceE] at h
      cases hx : sequenceE xs with
      | error e => rw [hx] at h; cases h
      | ok ws =>
        rw [hx] at h
        cases h
        simp [ih ws hx]

/-- Rewrapping a decoded list with `np.asanyarray` keeps the images. -/
theorem npArrayOfList_imgs (l : List Image) : (npArrayOfList l).imgs = l := by
  cases l with
  | nil => rfl
  | cons i rest =>
    simp only [npArrayOfList]
    split <;> rfl

/-- The two modes of `read_images` agree on every input. -/
theorem read_images_modes_agree (fs : FS) (names : List String) (dir : String) :
    read_images fs names dir true = read_images fs names dir false := by
  simp [read_images, poolMap, mapExcept_eq_sequenceE]

/-- C4: over an existing directory, `read_images` returns the same batch
in parallel and sequential mode, and in both modes the batch preserves
input order: index `i` of the returned batch holds exactly the decode
of the path joined from file name `i`. -/
theorem C4_read_images_order_and_modes (fs : FS) (names : List String)
    (dir : String) (hdir : dir ∈ fs.dirs) :
    read_images fs names dir true = read_images fs names dir false ∧
    ∀ b, read_images fs names dir true = .ok b →
      b.imgs.length = names.length ∧
      ∀ i, i < names.length →
        _image_to_array fs (pathJoin dir (names.getD i "")) =
          .ok (b.imgs.getD i default) := by
  refine ⟨read_images_modes_agree fs names dir, ?_⟩
  intro b hb
  rw [read_images, if_pos hdir] at hb
  simp only [if_pos rfl, if_true] at hb
  cases hp : poolMap (_image_to_array fs)
      (names.map (fun f => pathJoin dir f)) with
  | error e => rw [hp] at hb; cases hb
  | ok imgs =>
    rw [hp] at hb
    cases hb
    have hseq := sequenceE_ok _ _ hp
    have hlen : names.length = imgs.length := by
      have := congrArg List.length hseq
      simpa using this
    refine ⟨by simp [npArrayOfList_imgs, hlen], ?_⟩
    intro i hi
    have hi' : i < imgs.length := hlen ▸ hi
    have h1 : Option.map (_image_to_array fs)
        (Option.map (fun f => pathJoin dir f) names[i]?) =
        Option.map Except.ok imgs[i]? := by
      have := congrArg (fun l => l[i]?) hseq
      simpa using this
    rw [List.getElem?_eq_getElem hi, List.getElem?_eq_getElem hi'] at h1
    simp only [Option.map_some'] at h1
    have h2 := Option.some.inj h1
    simpa [npArrayOfList_imgs, List.getD_eq_getElem?_getD,
      List.getElem?_eq_getElem hi, List.getElem?_eq_getElem hi'] using h2

/-- Witness for C4 at concrete inputs: two one-pixel images read from
directory `d` in both modes. -/
theorem C4_witness :
    read_images ⟨[("d/a.png", ⟨[1, 1, 1], [0]⟩), ("d/b.png", ⟨[1, 1, 1], [7]⟩)], ["d"], []⟩
        ["a.png", "b.png"] "d" true =
      read_images ⟨[("d/a.png", ⟨[1, 1, 1], [0]⟩), ("d/b.png", ⟨[1, 1, 1], [7]⟩)], ["d"], []⟩
        ["a.png", "b.png"] "d" false ∧
    _image_to_array ⟨[("d/a.png", ⟨[1, 1, 1], [0]⟩), ("d/b.png", ⟨[1, 1, 1], [7]⟩)], ["d"], []⟩
        (pathJoin "d" (["a.png", "b.png"].getD 0 "")) =
      .ok ((Batch.mk [2, 1, 1, 1] [⟨[1, 1, 1], [0]⟩, ⟨[1, 1, 1], [7]⟩]).imgs.getD 0 default) ∧
    _image_to_array ⟨[("d/a.png", ⟨[1, 1, 1], [0]⟩), ("d/b.png", ⟨[1, 1, 1], [7]⟩)], ["d"], []⟩
        (pathJoin "d" (["a.png", "b.png"].getD 1 "")) =
      .ok ((Batch.mk [2, 1, 1, 1] [⟨[1, 1, 1], [0]⟩, ⟨[1, 1, 1], [7]⟩]).imgs.getD 1 default) := by
  have h := C4_read_images_order_and_modes
    ⟨[("d/a.png", ⟨[1, 1, 1], [0]⟩), ("d/b.png", ⟨[1, 1, 1], [7]⟩)], ["d"], []⟩
    ["a.png", "b.png"] "d" (by decide)
  have hok := h.2 (Batch.mk [2, 1, 1, 1] [⟨[1, 1, 1], [0]⟩, ⟨[1, 1, 1], [7]⟩]) rfl
  exact ⟨h.1, (hok.2 0 (by decide)), (hok.2 1 (by decide))⟩

/-- A failing element makes the whole comprehension fail with an error
that originated from some failing element. -/
theorem mapExcept_error_of_mem {α : Type} (f : String → Except PyErr α)
    (xs : List String) (x : String) (e : PyErr) (hx : x ∈ xs)
    (hfx : f x = .error e) :
    ∃ y d, y ∈ xs ∧ f y = .error d ∧ mapExcept f xs = .error d := by
  induction xs with
  | nil => cases hx
  | cons z zs ih =>
    cases hfz : f z with
    | error d =>
      exact ⟨z, d, List.mem_cons_self z zs, hfz, by simp [mapExcept, hfz]⟩
    | ok v =>
      have hx' : x ∈ zs := by
        rcases List.mem_cons.mp hx with rfl | h
        · rw [hfz] at hfx; cases hfx
        · exact h
      obtain ⟨y, d, hm, hf, hmap⟩ := ih hx'
      exact ⟨y, d, List.mem_cons_of_mem z hm, hf, by simp [mapExcept, hfz, hmap]⟩

/-- The only error `_image_to_array` produces is the missing-file error
for its own path. -/
theorem image_to_array_error (fs : FS) (x : String) (e : PyErr)
    (h : _image_to_array fs x = .error e) :
    e = .imageDoesNotExist x ∧ List.lookup x fs.images = none := by
  unfold _image_to_array at h
  split at h
  next img heq => split at h <;> simp at h
  next heq =>
    injection h with h2
    exact ⟨h2.symm, heq⟩

/-- C6: a missing image path makes the decoder fail with the
missing-image error (the spec's `NotFoundError`, raised in the source as
`ValueError: ... image does not exist`), and in either execution mode
that failure aborts the whole `read_images` batch: the result is the
originating error of some missing path, never a partial batch. -/
theorem C6_missing_image_aborts_batch (fs : FS) (names : List String)
    (dir : String) (name : String) (hdir : dir ∈ fs.dirs) (hmem : name ∈ names)
    (hmiss : List.lookup (pathJoin dir name) fs.images = none) :
    _image_to_array fs (pathJoin dir name) =
      .error (.imageDoesNotExist (pathJoin dir name)) ∧
    ∀ parallel, ∃ q, List.lookup q fs.images = none ∧
      read_images fs names dir parallel =
        .error (.imageDoesNotExist q) := by
  have hdec : _image_to_array fs (pathJoin dir name) =
      .error (.imageDoesNotExist (pathJoin dir name)) := by
    unfold _image_to_array
    rw [hmiss]
  refine ⟨hdec, ?_⟩
  intro parallel
  have hx : pathJoin dir name ∈ names.map (fun f => pathJoin dir f) :=
    List.mem_map_of_mem _ hmem
  obtain ⟨y, d, hm, hf, hmap⟩ :=
    mapExcept_error_of_mem (_image_to_array fs) _ _ _ hx hdec
  obtain ⟨rfl, hlk⟩ := image_to_array_error fs y d hf
  refine ⟨y, hlk, ?_⟩
  rw [read_images, if_pos hdir]
  cases parallel with
  | false =>
    simp only [Bool.false_eq_true, if_false]
    rw [hmap]
  | true =>
    simp only [if_true]
    rw [poolMap, ← mapExcept_eq_sequenceE, hmap]

/-- Witness for C6 at a concrete input: directory `d` exists but the file
`a.png` inside it does not. -/
theorem C6_witness :
    _image_to_array ⟨[], ["d"], []⟩ (pathJoin "d" "a.png") =
      .error (.imageDoesNotExist (pathJoin "d" "a.png")) ∧
    ∃ q, List.lookup q (FS.mk [] ["d"] []).images = none ∧
      read_images ⟨[], ["d"], []⟩ ["a.png"] "d" true =
        .error (.imageDoesNotExist q) := by
  have h := C6_missing_image_aborts_batch ⟨[], ["d"], []⟩ ["a.png"] "d" "a.png"
    (by decide) (by decide) rfl
  exact ⟨h.1, h.2 true⟩

/-- C7: for every existing image path whose decoded array has two or
three axes (the decoder collaborator's output for raster images) and
positive extents, `_image_to_array` succeeds with a 3-D tensor whose
trailing channel axis has size at least 1; a 2-axis grayscale image gets
a channel axis of size 1 appended. -/
theorem C7_decoder_output_3d (fs : FS) (p : String) (img : Image)
    (hlk : List.lookup p fs.images = some img)
    (hrank : img.shape.length = 2 ∨ img.shape.length = 3)
    (hpos : ∀ n ∈ img.shape, 1 ≤ n) :
    ∃ out, _image_to_array fs p = .ok out ∧ out.shape.length = 3 ∧
      (img.shape.length = 2 → out.shape = img.shape ++ [1]) ∧
      ∃ c, out.shape.getLast? = some c ∧ 1 ≤ c := by
  rcases hrank with h2 | h3
  · refine ⟨⟨img.shape ++ [1], img.data⟩, ?_, ?_, fun _ => rfl, 1,
      List.getLast?_concat _, le_refl 1⟩
    · simp only [_image_to_array, hlk]
      rw [if_pos (show img.shape.length < 3 by omega)]
    · simp [h2]
  · have hne : img.shape ≠ [] := by
      intro hnil
      rw [hnil] at h3
      cases h3
    obtain ⟨c, hc⟩ := Option.isSome_iff_exists.mp (List.getLast?_isSome.mpr hne)
    refine ⟨img, ?_, h3, fun h => by omega, c, hc,
      hpos c (List.mem_of_getLast?_eq_some hc)⟩
    simp only [_image_to_array, hlk]
    rw [if_neg (show ¬ img.shape.length < 3 by omega)]

/-- Witness for C7 at a concrete input: a 2-axis grayscale image of shape
`(2, 2)` stored at path `g`. -/
theorem C7_witness :
    ∃ out, _image_to_array ⟨[("g", ⟨[2, 2], [1, 2, 3, 4]⟩)], [], []⟩ "g" = .ok out ∧
      out.shape.length = 3 ∧
      ((Image.mk [2, 2] [1, 2, 3, 4]).shape.length = 2 →
        out.shape = (Image.mk [2, 2] [1, 2, 3, 4]).shape ++ [1]) ∧
      ∃ c, out.shape.getLast? = some c ∧ 1 ≤ c :=
  C7_decoder_output_3d ⟨[("g", ⟨[2, 2], [1, 2, 3, 4]⟩)], [], []⟩ "g"
    ⟨[2, 2], [1, 2, 3, 4]⟩ rfl (Or.inl rfl) (by decide)

/-- Reading index `i` through a mapped list, for an in-bounds index. -/
theorem getD_map_of_lt {α β : Type} (f : α → β) (l : List α) (i : Nat)
    (da : α) (db : β) (h : i < l.length) :
    (l.map f).getD i db = f (l.getD i da) := by
  simp [List.getD_eq_getElem?_getD, List.getElem?_eq_getElem h]

/-- Reading an in-bounds index of a zipped list. -/
theorem getD_zipWith_of_lt {α β γ : Type} (f : α → β → γ) (xs : List α)
    (ys : List β) (j : Nat) (da : α) (db : β) (dc : γ)
    (hx : j < xs.length) (hy : j < ys.length) :
    (List.zipWith f xs ys).getD j dc = f (xs.getD j da) (ys.getD j db) := by
  induction xs generalizing ys j with
  | nil => cases hx
  | cons x xs ih =>
    cases ys with
    | nil => cases hy
    | cons y ys =>
      cases j with
      | zero => rfl
      | succ j =>
        simp only [List.zipWith_cons_cons, List.getD_cons_succ]
        exact ih ys j (by simpa using hx) (by simpa using hy)

/-- Reading an in-bounds index of a list built by mapping over a range. -/
theorem getD_map_range {β : Type} (g : Nat → β) (n k : Nat) (db : β)
    (h : k < n) : ((List.range n).map g).getD k db = g k := by
  rw [List.getD_eq_getElem?_getD, List.getElem?_map, List.getElem?_range h]
  rfl

/-- C3: `normalize_images` computes the mean over the train batch only and
returns `((train - mean) / 255, (test - mean) / 255)`: every entry of
the test output is centered with the explicit train-batch average (sum
over the train images divided by the train count), never with any
statistic of the test batch. -/
theorem C3_normalize_images_uses_train_mean (x_train x_test : List (List Rat))
    (d : Nat) (htr : x_train ≠ [])
    (hdtr : ∀ x ∈ x_train, x.length = d)
    (hdte : ∀ x ∈ x_test, x.length = d) :
    (∀ i j, i < x_train.length → j < d →
      ((normalize_images x_train x_test).1.getD i []).getD j 0 =
        ((x_train.getD i []).getD j 0 -
          (x_train.map (fun x => x.getD j 0)).sum / (x_train.length : Rat)) / 255) ∧
    (∀ i j, i < x_test.length → j < d →
      ((normalize_images x_train x_test).2.getD i []).getD j 0 =
        ((x_test.getD i []).getD j 0 -
          (x_train.map (fun x => x.getD j 0)).sum / (x_train.length : Rat)) / 255) := by
  have hd1 : (x_train.headD []).length = d := by
    cases x_train with
    | nil => exact absurd rfl htr
    | cons a tl => exact hdtr a (List.mem_cons_self a tl)
  have hm : npMeanAxis0 x_train = (List.range d).map
      (fun j => (x_train.map (fun x => x.getD j 0)).sum / (x_train.length : Rat)) := by
    simp only [npMeanAxis0, hd1]
  have hmlen : (npMeanAxis0 x_train).length = d := by rw [hm]; simp
  have hmget : ∀ j, j < d → (npMeanAxis0 x_train).getD j 0 =
      (x_train.map (fun x => x.getD j 0)).sum / (x_train.length : Rat) := by
    intro j hj
    rw [hm, getD_map_range _ _ _ _ hj]
  constructor
  · intro i j hi hj
    have hrow : (x_train.getD i []) ∈ x_train := by
      rw [List.getD_eq_getElem?_getD, List.getElem?_eq_getElem hi]
      exact List.getElem_mem hi
    have hrowlen : j < (x_train.getD i []).length := by rw [hdtr _ hrow]; exact hj
    simp only [normalize_images]
    rw [getD_map_of_lt _ _ _ [] _ hi,
      getD_zipWith_of_lt _ _ _ _ 0 0 _ hrowlen (by rw [hmlen]; exact hj),
      hmget j hj]
  · intro i j hi hj
    have hrow : (x_test.getD i []) ∈ x_test := by
      rw [List.getD_eq_getElem?_getD, List.getElem?_eq_getElem hi]
      exact List.getElem_mem hi
    have hrowlen : j < (x_test.getD i []).length := by rw [hdte _ hrow]; exact hj
    simp only [normalize_images]
    rw [getD_map_of_lt _ _ _ [] _ hi,
      getD_zipWith_of_lt _ _ _ _ 0 0 _ hrowlen (by rw [hmlen]; exact hj),
      hmget j hj]

/-- Witness for C3 at the spec's concrete input: two one-pixel train
images `0` and `255` and one one-pixel test image `255`. -/
theorem C3_witness :
    ((normalize_images [[0], [255]] [[255]]).1.getD 0 []).getD 0 0 =
      ((([[0], [255]] : List (List Rat)).getD 0 []).getD 0 0 -
        (([[0], [255]] : List (List Rat)).map (fun x => x.getD 0 0)).sum /
          (([[0], [255]] : List (List Rat)).length : Rat)) / 255 ∧
    ((normalize_images [[0], [255]] [[255]]).2.getD 0 []).getD 0 0 =
      ((([[255]] : List (List Rat)).getD 0 []).getD 0 0 -
        (([[0], [255]] : List (List Rat)).map (fun x => x.getD 0 0)).sum /
          (([[0], [255]] : List (List Rat)).length : Rat)) / 255 := by
  have h := C3_normalize_images_uses_train_mean [[0], [255]] [[255]] 1
    (by decide) (by decide) (by decide)
  exact ⟨h.1 0 0 (by decide) (by decide), h.2 0 0 (by decide) (by decide)⟩

/-- The median of a list of naturals is nonnegative. -/
theorem medianQ_nonneg (l : List Nat) : 0 ≤ medianQ l := by
  simp only [medianQ]
  split
  · positivity
  · positivity

/-- Twice the median of a list of naturals is an integer: the median is
either an element or the average of two elements. -/
theorem two_mul_medianQ_int (l : List Nat) :
    ∃ m : Int, 2 * medianQ l = (m : Rat) := by
  simp only [medianQ]
  split
  · refine ⟨2 * ((List.insertionSort (· ≤ ·) l).getD
      ((List.insertionSort (· ≤ ·) l).length / 2) 0 : Nat), ?_⟩
    push_cast
    ring
  · refine ⟨((List.insertionSort (· ≤ ·) l).getD
        ((List.insertionSort (· ≤ ·) l).length / 2 - 1) 0 : Nat) +
      ((List.insertionSort (· ≤ ·) l).getD
        ((List.insertionSort (· ≤ ·) l).length / 2) 0 : Nat), ?_⟩
    push_cast
    ring

/-- Truncating a nonnegative rational whose double is an integer lands on
a nearest integer: the distance to it is at most one half. -/
theorem pyTrunc_near (q : Rat) (h0 : 0 ≤ q)
    (h2 : ∃ m : Int, 2 * q = (m : Rat)) :
    |((pyTrunc q : Int) : Rat) - q| ≤ 1 / 2 := by
  obtain ⟨m, hm⟩ := h2
  rw [pyTrunc, if_pos h0]
  have hfr0 : (0 : Rat) ≤ q - ⌊q⌋ := by
    have := Int.floor_le q
    linarith
  have hfr1 : q - (⌊q⌋ : Rat) < 1 := by
    have := Int.lt_floor_add_one q
    linarith
  have key : q - (⌊q⌋ : Rat) = 0 ∨ q - (⌊q⌋ : Rat) = 1 / 2 := by
    have hkq : ((m - 2 * ⌊q⌋ : Int) : Rat) = 2 * (q - ⌊q⌋) := by
      push_cast
      linarith
    have hk0 : 0 ≤ m - 2 * ⌊q⌋ := by
      have : (0 : Rat) ≤ ((m - 2 * ⌊q⌋ : Int) : Rat) := by rw [hkq]; linarith
      exact_mod_cast this
    have hk2 : m - 2 * ⌊q⌋ < 2 := by
      have : ((m - 2 * ⌊q⌋ : Int) : Rat) < 2 := by rw [hkq]; linarith
      exact_mod_cast this
    rcases Int.lt_iff_add_one_le.mp hk2 with h
    rcases Int.le_iff_lt_or_eq.mp h with h1 | h1
    · left
      have hz : m - 2 * ⌊q⌋ = 0 := by omega
      rw [hz] at hkq
      push_cast at hkq
      linarith
    · right
      have hz : m - 2 * ⌊q⌋ = 1 := by omega
      rw [hz] at hkq
      push_cast at hkq
      linarith
  rcases key with h | h
  · rw [abs_le]
    constructor <;> linarith
  · rw [abs_le]
    constructor <;> linarith

/-- C2: `compute_median_dimensions` on a non-empty batch of uniform rank
returns one integer per axis, each a nearest integer (distance at most
one half) to the element-wise median of the per-image extents for that
axis; in particular on shapes `[(10,10,3), (12,12,3), (8,8,3)]` it
returns `(10, 10, 3)`. -/
theorem C2_compute_median_dimensions (a : Batch) (d : Nat)
    (hsh : a.shape.length ≠ 0) (hne : a.imgs ≠ [])
    (hd : ∀ x ∈ a.imgs, x.shape.length = d) :
    (compute_median_dimensions (some a)).length = d ∧
    (∀ k, k < d →
      |(((compute_median_dimensions (some a)).getD k 0 : Int) : Rat) -
        medianQ (a.imgs.map (fun x => x.shape.getD k 0))| ≤ 1 / 2) ∧
    compute_median_dimensions
      (some ⟨[3], [⟨[10, 10, 3], []⟩, ⟨[12, 12, 3], []⟩, ⟨[8, 8, 3], []⟩]⟩) =
      [10, 10, 3] := by
  have hd1 : (a.imgs.headD default).shape.length = d := by
    cases himgs : a.imgs with
    | nil => exact absurd himgs hne
    | cons x tl => exact hd x (himgs ▸ List.mem_cons_self x tl)
  have hcmd : compute_median_dimensions (some a) = (List.range d).map
      (fun k => pyTrunc (medianQ (a.imgs.map (fun x => x.shape.getD k 0)))) := by
    simp only [compute_median_dimensions, medianShape, hd1]
    rw [if_neg hsh]
  refine ⟨by rw [hcmd]; simp, ?_, by decide⟩
  intro k hk
  rw [hcmd, getD_map_range _ _ _ _ hk]
  exact pyTrunc_near _ (medianQ_nonneg _) (two_mul_medianQ_int _)

/-- Witness for C2 at the spec's concrete input: three images of shapes
`(10,10,3)`, `(12,12,3)`, `(8,8,3)` held in an object array. -/
theorem C2_witness :
    (compute_median_dimensions
      (some ⟨[3], [⟨[10, 10, 3], []⟩, ⟨[12, 12, 3], []⟩, ⟨[8, 8, 3], []⟩]⟩)).length = 3 ∧
    |(((compute_median_dimensions
        (some ⟨[3], [⟨[10, 10, 3], []⟩, ⟨[12, 12, 3], []⟩, ⟨[8, 8, 3], []⟩]⟩)).getD 0 0 : Int) : Rat) -
      medianQ ([⟨[10, 10, 3], []⟩, ⟨[12, 12, 3], []⟩, ⟨[8, 8, 3], []⟩].map
        (fun x : Image => x.shape.getD 0 0))| ≤ 1 / 2 ∧
    compute_median_dimensions
      (some ⟨[3], [⟨[10, 10, 3], []⟩, ⟨[12, 12, 3], []⟩, ⟨[8, 8, 3], []⟩]⟩) =
      [10, 10, 3] := by
  have h := C2_compute_median_dimensions
    ⟨[3], [⟨[10, 10, 3], []⟩, ⟨[12, 12, 3], []⟩, ⟨[8, 8, 3], []⟩]⟩ 3
    (by decide) (by decide) (by decide)
  exact ⟨h.1, h.2.1 0 (by decide), h.2.2⟩

/-- Counterexample to C5 as stated: an empty four-dimensional batch (shape
`(0, 1, 1, 1)`, zero images) passes the `len(images.shape) == 0` guard,
the comprehension over its zero images yields `np.array([])` of shape
`(0,)`, and so `resize_images` does not return its input unchanged. -/
theorem C5_counterexample :
    resize_images modelZoom (some ⟨[0, 1, 1, 1], []⟩) none ≠
      some (Batch.mk [0, 1, 1, 1] []) := by decide

/-- C5 amended: `resize_images` returns its input unchanged for `None`,
for a shapeless (0-d) batch, and for an empty one-dimensional batch;
an empty batch of higher rank is instead returned as the empty
one-dimensional array of shape `(0,)` (the same zero images, with the
array shape collapsed). -/
theorem C5_resize_images_on_empty (zf : List Rat → Image → Image) :
    (∀ images : Option Batch,
      (images = none ∨ (∃ a, images = some a ∧ a.shape = []) ∨
        (∃ a, images = some a ∧ a.shape = [0] ∧ a.imgs = [])) →
      resize_images zf images none = images) ∧
    (∀ a : Batch, a.shape.length ≠ 0 → a.imgs = [] →
      resize_images zf (some a) none = some ⟨[0], []⟩) := by
  constructor
  · rintro images (rfl | ⟨a, rfl, hsh⟩ | ⟨a, rfl, hsh, himgs⟩)
    · rfl
    · simp [resize_images, hsh]
    · obtain ⟨sh, im⟩ := a
      cases hsh
      cases himgs
      simp [resize_images, npArrayOfList]
  · intro a hsh himgs
    simp only [resize_images, himgs, List.map_nil]
    rw [if_neg hsh]
    rfl

/-- Witness for C5's amended statement at concrete inputs: the empty
one-dimensional batch is returned unchanged, while the empty
four-dimensional batch collapses to shape `(0,)`. -/
theorem C5_witness :
    resize_images modelZoom (some ⟨[0], []⟩) none = some (Batch.mk [0] []) ∧
    resize_images modelZoom (some ⟨[0, 1, 1, 1], []⟩) none = some (Batch.mk [0] []) := by
  have h := C5_resize_images_on_empty modelZoom
  exact ⟨h.1 (some ⟨[0], []⟩) (Or.inr (Or.inr ⟨_, rfl, rfl, rfl⟩)),
    h.2 ⟨[0, 1, 1, 1], []⟩ (by decide) rfl⟩

/-- An in-bounds default read is a member of the list. -/
theorem getD_mem_of_lt {α : Type} (l : List α) (k : Nat) (d0 : α)
    (h : k < l.length) : l.getD k d0 ∈ l := by
  rw [List.getD_eq_getElem?_getD, List.getElem?_eq_getElem h]
  exact List.getElem_mem h

/-- Python's round is the identity on integers. -/
theorem pyRound_intCast (n : Int) : pyRound ((n : Int) : Rat) = n := by
  simp only [pyRound, Int.floor_intCast]
  have hc : ((n : Int) : Rat) - ((n : Int) : Rat) < 1 / 2 := by
    rw [sub_self]
    norm_num
  rw [if_pos hc]

/-- scipy's output-shape rule applied to the exact factors
`size / shape` recovers `size` itself on every axis, for positive
extents: `round((size_i / shape_i) * shape_i) = size_i`. -/
theorem zoomOutShape_factors (sz : List Int) (sh : List Nat)
    (hlen : sz.length = sh.length) (hpos : ∀ n ∈ sh, 1 ≤ n) :
    zoomOutShape (zoomFactors sz sh) sh = sz.map Int.toNat := by
  induction sz generalizing sh with
  | nil =>
    cases sh with
    | nil => rfl
    | cons n ns => simp at hlen
  | cons s sz ih =>
    cases sh with
    | nil => simp at hlen
    | cons n ns =>
      have hn : 1 ≤ n := hpos n (List.mem_cons_self n ns)
      have hnne : ((n : Nat) : Rat) ≠ 0 := Nat.cast_ne_zero.mpr (by omega)
      simp only [zoomFactors, zoomOutShape, List.zipWith_cons_cons, List.map_cons]
      congr 1
      · rw [div_mul_cancel₀ _ hnne, pyRound_intCast]
      · exact ih ns (by simpa using hlen)
          (fun m hm => hpos m (List.mem_cons_of_mem n hm))

/-- The median of a non-empty constant list is that constant. -/
theorem medianQ_const (l : List Nat) (c : Nat) (hne : l ≠ [])
    (hc : ∀ n ∈ l, n = c) : medianQ l = (c : Rat) := by
  have hperm := List.perm_insertionSort (· ≤ ·) l
  have hlen : (List.insertionSort (· ≤ ·) l).length = l.length := hperm.length_eq
  have hpos : 0 < l.length := List.length_pos.mpr hne
  have hmem : ∀ k, k < (List.insertionSort (· ≤ ·) l).length →
      (List.insertionSort (· ≤ ·) l).getD k 0 = c :=
    fun k hk => hc _ (hperm.subset (getD_mem_of_lt _ _ _ hk))
  simp only [medianQ]
  split
  next hodd =>
    rw [hmem _ (by omega)]
  next heven =>
    rw [hmem _ (by omega), hmem _ (by omega)]
    ring

/-- The median of a non-empty list of extents that are all at least 1 is
at least 1. -/
theorem one_le_medianQ (l : List Nat) (hne : l ≠ [])
    (h1 : ∀ n ∈ l, 1 ≤ n) : 1 ≤ medianQ l := by
  have hperm := List.perm_insertionSort (· ≤ ·) l
  have hlen : (List.insertionSort (· ≤ ·) l).length = l.length := hperm.length_eq
  have hpos : 0 < l.length := List.length_pos.mpr hne
  have hmem : ∀ k, k < (List.insertionSort (· ≤ ·) l).length →
      1 ≤ (List.insertionSort (· ≤ ·) l).getD k 0 :=
    fun k hk => h1 _ (hperm.subset (getD_mem_of_lt _ _ _ hk))
  simp only [medianQ]
  split
  next hodd =>
    exact_mod_cast hmem _ (by omega)
  next heven =>
    have ha : (1 : Rat) ≤ ((List.insertionSort (· ≤ ·) l).getD
        ((List.insertionSort (· ≤ ·) l).length / 2 - 1) 0 : Nat) := by
      exact_mod_cast hmem _ (by omega)
    have hb : (1 : Rat) ≤ ((List.insertionSort (· ≤ ·) l).getD
        ((List.insertionSort (· ≤ ·) l).length / 2) 0 : Nat) := by
      exact_mod_cast hmem _ (by omega)
    linarith

/-- Truncation of a rational that is at least 1 is at least 1. -/
theorem one_le_pyTrunc (q : Rat) (h : 1 ≤ q) : 1 ≤ pyTrunc q := by
  rw [pyTrunc, if_pos (le_trans zero_le_one h)]
  exact Int.le_floor.mpr (by exact_mod_cast h)

/-- Truncation is the identity on casts of naturals. -/
theorem pyTrunc_natCast (c : Nat) : pyTrunc ((c : Nat) : Rat) = (c : Int) := by
  rw [pyTrunc, if_pos (by positivity)]
  exact_mod_cast Int.floor_natCast c

/-- Mapping an in-bounds default read over the index range rebuilds the
list. -/
theorem map_getD_range {α : Type} (l : List α) (d0 : α) :
    (List.range l.length).map (fun k => l.getD k d0) = l := by
  induction l with
  | nil => rfl
  | cons a tl ih =>
    rw [List.length_cons, List.range_succ_eq_map, List.map_cons, List.map_map]
    have hcomp : ((fun k => (a :: tl).getD k d0) ∘ Nat.succ) =
        (fun k => tl.getD k d0) :=
      funext fun k => List.getD_cons_succ
    rw [hcomp, ih]
    rfl

/-- `np.array` on a non-empty list of equal-shaped images stacks them. -/
theorem npArrayOfList_uniform (l : List Image) (s : List Nat) (hne : l ≠ [])
    (hs : ∀ x ∈ l, x.shape = s) :
    npArrayOfList l = ⟨l.length :: s, l⟩ := by
  cases l with
  | nil => exact absurd rfl hne
  | cons i rest =>
    have hi : i.shape = s := hs i (List.mem_cons_self i rest)
    have hall : rest.all (fun j => decide (j.shape = i.shape)) = true := by
      rw [List.all_eq_true]
      intro j hj
      simp [hs j (List.mem_cons_of_mem i hj), hi]
    simp only [npArrayOfList, hall, if_true]
    rw [hi]

/-- The concrete resampler honours scipy's output-shape contract. -/
theorem modelZoom_spec : ZoomSpec modelZoom := fun _ _ => rfl

/-- C8: on a non-empty batch of (possibly heterogeneous) images of
uniform rank and positive extents, `resize_images` with a resampler
honouring scipy's shape contract produces a batch whose images all
share one identical shape, and resizing that already-uniform batch
again changes no image shape. -/
theorem C8_resize_images_uniform_and_idempotent
    (zf : List Rat → Image → Image) (a : Batch) (d : Nat)
    (hzf : ZoomSpec zf) (hsh : a.shape.length ≠ 0) (hne : a.imgs ≠ [])
    (hd : ∀ x ∈ a.imgs, x.shape.length = d)
    (hpos : ∀ x ∈ a.imgs, ∀ n ∈ x.shape, 1 ≤ n) :
    ∃ b b2 s, resize_images zf (some a) none = some b ∧ b.imgs ≠ [] ∧
      (∀ x ∈ b.imgs, x.shape = s) ∧
      resize_images zf (some b) none = some b2 ∧
      b2.imgs.map Image.shape = b.imgs.map Image.shape := by
  have hd1 : (a.imgs.headD default).shape.length = d := by
    cases himgs : a.imgs with
    | nil => exact absurd himgs hne
    | cons x tl => exact hd x (himgs ▸ List.mem_cons_self x tl)
  have hszdef : medianShape a.imgs = (List.range d).map
      (fun k => pyTrunc (medianQ (a.imgs.map (fun x => x.shape.getD k 0)))) := by
    simp only [medianShape, hd1]
  have hszlen : (medianShape a.imgs).length = d := by rw [hszdef]; simp
  have hszpos : ∀ s ∈ medianShape a.imgs, 1 ≤ s := by
    rw [hszdef]
    intro s hs
    obtain ⟨k, hk, rfl⟩ := List.mem_map.mp hs
    have hk' : k < d := List.mem_range.mp hk
    apply one_le_pyTrunc
    apply one_le_medianQ
    · simp [hne]
    · intro n hn
      obtain ⟨x, hx, rfl⟩ := List.mem_map.mp hn
      have hkx : k < x.shape.length := by rw [hd x hx]; exact hk'
      exact hpos x hx _ (getD_mem_of_lt _ _ _ hkx)
  have hmapshape : ∀ x ∈ a.imgs,
      (zf (zoomFactors (medianShape a.imgs) x.shape) x).shape =
        (medianShape a.imgs).map Int.toNat := by
    intro x hx
    rw [hzf]
    exact zoomOutShape_factors _ _ (by rw [hszlen, hd x hx]) (hpos x hx)
  have hres1 : resize_images zf (some a) none =
      some (npArrayOfList (a.imgs.map
        (fun x => zf (zoomFactors (medianShape a.imgs) x.shape) x))) := by
    simp only [resize_images, compute_median_dimensions, if_neg hsh]
  set mapped := a.imgs.map
    (fun x => zf (zoomFactors (medianShape a.imgs) x.shape) x) with hmdef
  have hmne : mapped ≠ [] := by
    intro hnil
    rw [hmdef] at hnil
    exact hne (List.map_eq_nil_iff.mp hnil)
  have hmshape : ∀ x ∈ mapped, x.shape = (medianShape a.imgs).map Int.toNat := by
    intro x hx
    rw [hmdef] at hx
    obtain ⟨y, hy, rfl⟩ := List.mem_map.mp hx
    exact hmapshape y hy
  have hb : npArrayOfList mapped =
      ⟨mapped.length :: (medianShape a.imgs).map Int.toNat, mapped⟩ :=
    npArrayOfList_uniform mapped _ hmne hmshape
  have hslen : ((medianShape a.imgs).map Int.toNat).length = d := by
    simp [hszlen]
  have hspos : ∀ n ∈ (medianShape a.imgs).map Int.toNat, 1 ≤ n := by
    intro n hn
    obtain ⟨z, hz, rfl⟩ := List.mem_map.mp hn
    have := hszpos z hz
    omega
  have hd2 : (mapped.headD default).shape.length = d := by
    cases hm : mapped with
    | nil => exact absurd hm hmne
    | cons x tl =>
      have hx : x.shape = (medianShape a.imgs).map Int.toNat :=
        hmshape x (hm ▸ List.mem_cons_self x tl)
      show x.shape.length = d
      rw [hx]
      exact hslen
  have hms2 : medianShape mapped =
      ((medianShape a.imgs).map Int.toNat).map (fun c : Nat => (c : Int)) := by
    have hstep : ∀ k ∈ List.range d,
        pyTrunc (medianQ (mapped.map (fun x => x.shape.getD k 0))) =
          ((((medianShape a.imgs).map Int.toNat).getD k 0 : Nat) : Int) := by
      intro k _
      rw [medianQ_const (mapped.map fun x => x.shape.getD k 0)
        (((medianShape a.imgs).map Int.toNat).getD k 0) (by simp [hmne]) ?_]
      · exact pyTrunc_natCast _
      · intro n hn
        obtain ⟨x, hx, rfl⟩ := List.mem_map.mp hn
        rw [hmshape x hx]
    calc medianShape mapped
        = (List.range d).map
            (fun k => pyTrunc (medianQ (mapped.map (fun x => x.shape.getD k 0)))) := by
          simp only [medianShape, hd2]
      _ = (List.range d).map
            (fun k => ((((medianShape a.imgs).map Int.toNat).getD k 0 : Nat) : Int)) :=
          List.map_congr_left hstep
      _ = ((List.range d).map
            (fun k => ((medianShape a.imgs).map Int.toNat).getD k 0)).map
            (fun c : Nat => (c : Int)) := by
          rw [List.map_map]
          rfl
      _ = ((medianShape a.imgs).map Int.toNat).map (fun c : Nat => (c : Int)) := by
          rw [← hslen, map_getD_range]
  have htoNat : (medianShape mapped).map Int.toNat =
      (medianShape a.imgs).map Int.toNat := by
    rw [hms2, List.map_map]
    have hcomp : (Int.toNat ∘ fun c : Nat => (c : Int)) = id :=
      funext fun c => Int.toNat_natCast c
    rw [hcomp, List.map_id]
  have hmapshape2 : ∀ x ∈ mapped,
      (zf (zoomFactors (medianShape mapped) x.shape) x).shape =
        (medianShape a.imgs).map Int.toNat := by
    intro x hx
    rw [hzf]
    rw [zoomOutShape_factors _ _ ?_ ?_]
    · exact htoNat
    · rw [hms2, hmshape x hx]
      simp
    · rw [hmshape x hx]
      exact hspos
  have hbsh : (mapped.length :: (medianShape a.imgs).map Int.toNat).length ≠ 0 := by
    simp
  have hres2 : resize_images zf (some (npArrayOfList mapped)) none =
      some (npArrayOfList (mapped.map
        (fun x => zf (zoomFactors (medianShape mapped) x.shape) x))) := by
    rw [hb]
    simp only [resize_images, compute_median_dimensions, if_neg hbsh]
  refine ⟨npArrayOfList mapped,
    npArrayOfList (mapped.map (fun x => zf (zoomFactors (medianShape mapped) x.shape) x)),
    (medianShape a.imgs).map Int.toNat, hres1, ?_, ?_, hres2, ?_⟩
  · rw [npArrayOfList_imgs]
    exact hmne
  · rw [npArrayOfList_imgs]
    exact hmshape
  · rw [npArrayOfList_imgs, npArrayOfList_imgs, List.map_map]
    refine List.map_congr_left ?_
    intro x hx
    exact (hmapshape2 x hx).trans (hmshape x hx).symm

/-- Witness for C8 at a concrete input: an object array of two rank-3
images of different shapes `(2,4,1)` and `(4,2,1)`, resized by the
concrete resampler. -/
theorem C8_witness :
    ∃ b b2 s,
      resize_images modelZoom (some ⟨[2], [⟨[2, 4, 1], []⟩, ⟨[4, 2, 1], []⟩]⟩) none =
        some b ∧ b.imgs ≠ [] ∧ (∀ x ∈ b.imgs, x.shape = s) ∧
      resize_images modelZoom (some b) none = some b2 ∧
      b2.imgs.map Image.shape = b.imgs.map Image.shape :=
  C8_resize_images_uniform_and_idempotent modelZoom
    ⟨[2], [⟨[2, 4, 1], []⟩, ⟨[4, 2, 1], []⟩]⟩ 3 modelZoom_spec
    (by decide) (by decide) (by decide) (by decide)

end SymNet
